import Mathlib

/-!
Verification of `src/06-objects-tasks.js`: a rectangle factory, a JSON
serializer/deserializer pair, and a fluent CSS selector builder with
validated part ordering.

The JavaScript source is shallowly embedded:

* the `CSSSelector` class becomes a Lean structure whose mutating methods
  become state-passing functions; a method that can `throw` returns
  `Except (String × CSSSelector) CSSSelector`, where the error case carries
  the message of the thrown `Error` together with the state of the object at
  the moment of the throw (in the source every `throw` in `checkStructure`
  textually precedes every mutation of `this`, so the carried state is the
  entry state);
* `this.structure` (a JS array, pushed at the end) becomes a Lean list
  appended at the end; `this.structure.slice(-1)` yields a one-element array
  whose use as a property key coerces to the last element itself, so
  `this.order[this.structure.slice(-1)]` is embedded as the rank of the last
  element of the list;
* JS string concatenation becomes `String.append`.

JS field/method names that are Lean keywords (`structure`, `class`) are
rendered with a trailing apostrophe.
-/

/-- The six selector part kinds tracked by `this.order` in the source. -/
inductive Kind where
  | element
  | id
  | class'
  | attr
  | pseudoClass
  | pseudoElement
deriving Repr, DecidableEq

/-- The builder state: `this.css` and `this.structure` of the `CSSSelector`
class. The constants `this.order` and `this.uniqs` are per-instance in the
source but never mutated, so they are embedded as top-level constants. -/
structure CSSSelector where
  css : String := ""
  structure' : List Kind := []
deriving Repr, DecidableEq

namespace CSSSelector

/-- Constant `this.order`: rank of each part kind (element 1 … pseudoElement 6). -/
def order : Kind → Nat
  | .element => 1
  | .id => 2
  | .class' => 3
  | .attr => 4
  | .pseudoClass => 5
  | .pseudoElement => 6

/-- Constant `this.uniqs`: kinds restricted to at most one occurrence. -/
def uniqs : List Kind := [.element, .id, .pseudoElement]

/-- The message of the order error thrown by `checkStructure`. -/
def msgOrder : String :=
  "Selector parts should be arranged in the following order: element, id, class, attribute, pseudo-class, pseudo-element"

/-- The message of the uniqueness error thrown by `checkStructure`. -/
def msgUniqs : String :=
  "Element, id and pseudo-element should not occur more then one time inside the selector"

/-- Method `checkStructure(value)`: throws the uniqueness error when `value` is a
singleton kind already present, then throws the order error when the
structure is non-empty and the new kind ranks strictly below the last
appended kind, otherwise pushes `value` onto `this.structure`. -/
def checkStructure (value : Kind) (s : CSSSelector) :
    Except (String × CSSSelector) CSSSelector :=
  if value ∈ uniqs ∧ value ∈ s.structure' then
    .error (msgUniqs, s)
  else
    match s.structure'.getLast? with
    | some lastK =>
        if order value < order lastK then
          .error (msgOrder, s)
        else
          .ok { s with structure' := s.structure' ++ [value] }
    | none => .ok { s with structure' := s.structure' ++ [value] }

/-- Method `element(value)`: validate kind `element`, then `this.css += value`. -/
def element (value : String) (s : CSSSelector) :
    Except (String × CSSSelector) CSSSelector :=
  (checkStructure .element s).map fun s1 => { s1 with css := s1.css ++ value }

/-- Method `id(value)`: validate kind `id`, then append `#` + value. -/
def id (value : String) (s : CSSSelector) :
    Except (String × CSSSelector) CSSSelector :=
  (checkStructure .id s).map fun s1 => { s1 with css := s1.css ++ "#" ++ value }

/-- Method `class(value)`: validate kind `class`, then append `.` + value. -/
def class' (value : String) (s : CSSSelector) :
    Except (String × CSSSelector) CSSSelector :=
  (checkStructure .class' s).map fun s1 => { s1 with css := s1.css ++ "." ++ value }

/-- Method `attr(value)`: validate kind `attr`, then append `[` + value + `]`. -/
def attr (value : String) (s : CSSSelector) :
    Except (String × CSSSelector) CSSSelector :=
  (checkStructure .attr s).map fun s1 =>
    { s1 with css := s1.css ++ "[" ++ value ++ "]" }

/-- Method `pseudoClass(value)`: validate kind `pseudoClass`, then append `:` + value. -/
def pseudoClass (value : String) (s : CSSSelector) :
    Except (String × CSSSelector) CSSSelector :=
  (checkStructure .pseudoClass s).map fun s1 =>
    { s1 with css := s1.css ++ ":" ++ value }

/-- Method `pseudoElement(value)`: validate kind `pseudoElement`, then append
`::` + value. -/
def pseudoElement (value : String) (s : CSSSelector) :
    Except (String × CSSSelector) CSSSelector :=
  (checkStructure .pseudoElement s).map fun s1 =>
    { s1 with css := s1.css ++ "::" ++ value }

/-- Method `stringify()`: returns `this.css`. -/
def stringify (s : CSSSelector) : String := s.css

/-- Method `combine(selector1, combinator, selector2)`: appends
`selector1.stringify() + " " + combinator + " " + selector2.stringify()`
to `this.css`; no validation, `this.structure` untouched. -/
def combine (selector1 : CSSSelector) (combinator : String)
    (selector2 : CSSSelector) (s : CSSSelector) : CSSSelector :=
  { s with
    css := s.css ++ selector1.stringify ++ " " ++ combinator ++ " "
      ++ selector2.stringify }

/-- Dispatch a part-method call by kind: `applyPart k v s` is the call of the
part method for kind `k` with argument `v` on builder `s`. -/
def applyPart (k : Kind) (value : String) (s : CSSSelector) :
    Except (String × CSSSelector) CSSSelector :=
  match k with
  | .element => s.element value
  | .id => s.id value
  | .class' => s.class' value
  | .attr => s.attr value
  | .pseudoClass => s.pseudoClass value
  | .pseudoElement => s.pseudoElement value

/-- Literal rendering of a single part: exactly the string each part method
appends to `this.css` (value, `#`+value, `.`+value, `[`+value+`]`,
`:`+value, `::`+value). -/
def render (k : Kind) (value : String) : String :=
  match k with
  | .element => value
  | .id => "#" ++ value
  | .class' => "." ++ value
  | .attr => "[" ++ value ++ "]"
  | .pseudoClass => ":" ++ value
  | .pseudoElement => "::" ++ value

/-- Run a sequence of part-method calls on a builder, stopping at the first
thrown error (exception propagation). -/
def runCalls (calls : List (Kind × String)) (s : CSSSelector) :
    Except (String × CSSSelector) CSSSelector :=
  match calls with
  | [] => .ok s
  | (k, v) :: rest => (applyPart k v s).bind (runCalls rest)

/-- Concatenation, in call order, of the literal renderings of a call list. -/
def concatRenders (calls : List (Kind × String)) : String :=
  match calls with
  | [] => ""
  | (k, v) :: rest => render k v ++ concatRenders rest

/-- Builder states reachable by some sequence of successful part-method and
`combine` calls starting from `new CSSSelector()`. -/
inductive Reachable : CSSSelector → Prop where
  | init : Reachable {}
  | part {k : Kind} {v : String} {s s' : CSSSelector} :
      Reachable s → applyPart k v s = .ok s' → Reachable s'
  | comb (l : CSSSelector) (c : String) (r : CSSSelector) {s : CSSSelector} :
      Reachable s → Reachable (combine l c r s)

/-- The structural invariant of a builder: `this.structure` is monotonically
non-decreasing in rank, and each singleton kind occurs at most once. -/
def Inv (s : CSSSelector) : Prop :=
  List.Chain' (fun a b => order a ≤ order b) s.structure' ∧
    ∀ k ∈ uniqs, s.structure'.count k ≤ 1

end CSSSelector

namespace cssSelectorBuilder

/-- Facade `element`: `new CSSSelector().element(value)`. -/
def element (value : String) : Except (String × CSSSelector) CSSSelector :=
  CSSSelector.element value {}

/-- Facade `id`: `new CSSSelector().id(value)`. -/
def id (value : String) : Except (String × CSSSelector) CSSSelector :=
  CSSSelector.id value {}

/-- Facade `class`: `new CSSSelector().class(value)`. -/
def class' (value : String) : Except (String × CSSSelector) CSSSelector :=
  CSSSelector.class' value {}

/-- Facade `attr`: `new CSSSelector().attr(value)`. -/
def attr (value : String) : Except (String × CSSSelector) CSSSelector :=
  CSSSelector.attr value {}

/-- Facade `pseudoClass`: `new CSSSelector().pseudoClass(value)`. -/
def pseudoClass (value : String) : Except (String × CSSSelector) CSSSelector :=
  CSSSelector.pseudoClass value {}

/-- Facade `pseudoElement`: `new CSSSelector().pseudoElement(value)`. -/
def pseudoElement (value : String) : Except (String × CSSSelector) CSSSelector :=
  CSSSelector.pseudoElement value {}

/-- Facade `combine`: `new CSSSelector().combine(s1, c, s2)`. -/
def combine (selector1 : CSSSelector) (combinator : String)
    (selector2 : CSSSelector) : CSSSelector :=
  CSSSelector.combine selector1 combinator selector2 {}

/-- Facade `stringify`: `new CSSSelector().stringify()`. -/
def stringify : String := CSSSelector.stringify {}

end cssSelectorBuilder

/-- The record returned by `Rectangle(width, height)`. JS numbers are
embedded as integers (the claims concern exact arithmetic on plain data). -/
structure RectangleObj where
  width : Int
  height : Int
deriving Repr, DecidableEq

/-- Factory `Rectangle(width, height)`: returns `{ width, height, getArea() }`. -/
def Rectangle (width height : Int) : RectangleObj :=
  { width := width, height := height }

/-- Method `getArea()`: returns `this.width * this.height`, reading `this` at call
time; embedded as a function of the current record value. -/
def RectangleObj.getArea (r : RectangleObj) : Int := r.width * r.height

/-!
The JSON helpers of the source are one-line delegations to the platform:
`getJSON(obj)` is `JSON.stringify(obj)` and `fromJSON(proto, json)` is
`Object.assign(Object.create(proto), JSON.parse(json))`. `JSON.stringify`,
`JSON.parse`, `Object.create` and `Object.assign` are not repository code;
they are modelled below from their documented ECMAScript semantics, with
two domain restrictions recorded here: numbers are embedded as integers
(the claims concern plain data that serializes without loss, and float
formatting is outside the embedding), and the modelled parser accepts
exactly the whitespace-free grammar that the serializer emits (which is all
that the round-trip claims exercise).
-/

/-- JSON values: the image of plain JS data. An object's field list is kept
in the object's property order; a real JS object never has duplicate keys. -/
inductive JVal where
  | jnull
  | jbool (b : Bool)
  | jnum (n : Int)
  | jstr (s : String)
  | jarr (elems : List JVal)
  | jobj (fields : List (String × JVal))

/-- The double-quote character. -/
def quoteCh : Char := Char.ofNat 34

/-- The backslash character. -/
def backslashCh : Char := Char.ofNat 92

/-- The opening curly-brace character. -/
def lbraceCh : Char := Char.ofNat 123

/-- The closing curly-brace character. -/
def rbraceCh : Char := Char.ofNat 125

/-- Lowercase hex digit for a value below 16, as emitted by the
`\u00XX` escapes of `JSON.stringify`. -/
def hexDigit (n : Nat) : Char :=
  if n < 10 then Char.ofNat (48 + n) else Char.ofNat (87 + n)

/-- The decimal digit character for a value below 10. -/
def digitChar (d : Nat) : Char := Char.ofNat (48 + d)

/-- The `QuoteJSONString` escaping of one character: `\"`, `\\`, the five short
control escapes, `\u00XX` for the remaining control characters, and every
other character literally. -/
def escapeChar (c : Char) : List Char :=
  if c = quoteCh then [backslashCh, quoteCh]
  else if c = backslashCh then [backslashCh, backslashCh]
  else if c = Char.ofNat 8 then [backslashCh, 'b']
  else if c = Char.ofNat 9 then [backslashCh, 't']
  else if c = Char.ofNat 10 then [backslashCh, 'n']
  else if c = Char.ofNat 12 then [backslashCh, 'f']
  else if c = Char.ofNat 13 then [backslashCh, 'r']
  else if c.toNat < 32 then
    [backslashCh, 'u', '0', '0', hexDigit (c.toNat / 16), hexDigit (c.toNat % 16)]
  else [c]

/-- Escaped body of a string literal, closing quote included. -/
def strBody : List Char → List Char
  | [] => [quoteCh]
  | c :: cs => escapeChar c ++ strBody cs

/-- Decimal digits, most significant first, by fuel (any fuel above the
value itself is enough). -/
def natCharsAux : Nat → Nat → List Char
  | 0, _ => []
  | fuel + 1, n =>
      if n < 10 then [digitChar n]
      else natCharsAux fuel (n / 10) ++ [digitChar (n % 10)]

/-- Decimal digits of a natural number, most significant first. -/
def natChars (n : Nat) : List Char := natCharsAux (n + 1) n

/-- Decimal rendering of an integer (JS `String(n)` for integers). -/
def intChars (n : Int) : List Char :=
  if n < 0 then '-' :: natChars (-n).toNat else natChars n.toNat

mutual

/-- Function `JSON.stringify`, character by character (modelled platform function). -/
def sChars : JVal → List Char
  | .jnull => ['n', 'u', 'l', 'l']
  | .jbool true => ['t', 'r', 'u', 'e']
  | .jbool false => ['f', 'a', 'l', 's', 'e']
  | .jnum n => intChars n
  | .jstr s => quoteCh :: strBody s.data
  | .jarr vs => '[' :: arrChars vs
  | .jobj fs => lbraceCh :: objChars fs

/-- Rendering of an array's elements, closing bracket included. -/
def arrChars : List JVal → List Char
  | [] => [']']
  | v :: vs => sChars v ++ arrTail vs

/-- Rendering of an array's elements after the first, each preceded by a
comma, closing bracket included. -/
def arrTail : List JVal → List Char
  | [] => [']']
  | v :: vs => ',' :: (sChars v ++ arrTail vs)

/-- Rendering of an object's fields, closing brace included. -/
def objChars : List (String × JVal) → List Char
  | [] => [rbraceCh]
  | (k, v) :: fs => (quoteCh :: strBody k.data) ++ (':' :: sChars v) ++ objTail fs

/-- Rendering of an object's fields after the first, each preceded by a
comma, closing brace included. -/
def objTail : List (String × JVal) → List Char
  | [] => [rbraceCh]
  | (k, v) :: fs =>
      ',' :: ((quoteCh :: strBody k.data) ++ (':' :: sChars v) ++ objTail fs)

end

/-- Function `JSON.stringify` as a `String` (modelled platform function). -/
def jsonStringify (v : JVal) : String := String.mk (sChars v)

/-- Function `getJSON(obj)`: `return JSON.stringify(obj)`. -/
def getJSON (obj : JVal) : String := jsonStringify obj

/-- Numeric value of a decimal digit character. -/
def digitVal (c : Char) : Nat := c.toNat - 48

/-- Whether a character is a decimal digit. -/
def isDigitCh (c : Char) : Bool := 48 ≤ c.toNat && c.toNat ≤ 57

/-- Numeric value of a hex digit character (0 on other input). -/
def hexVal (c : Char) : Nat :=
  if 48 ≤ c.toNat ∧ c.toNat ≤ 57 then c.toNat - 48
  else if 97 ≤ c.toNat ∧ c.toNat ≤ 102 then c.toNat - 87
  else if 65 ≤ c.toNat ∧ c.toNat ≤ 70 then c.toNat - 55
  else 0

/-- Whether a character is a hex digit. -/
def isHexCh (c : Char) : Bool :=
  isDigitCh c || (97 ≤ c.toNat && c.toNat ≤ 102) || (65 ≤ c.toNat && c.toNat ≤ 70)

/-- Decoding of a single-character string escape of `JSON.parse`. -/
def escDecode (e : Char) : Option Char :=
  if e = quoteCh then some quoteCh
  else if e = backslashCh then some backslashCh
  else if e = '/' then some '/'
  else if e = 'b' then some (Char.ofNat 8)
  else if e = 't' then some (Char.ofNat 9)
  else if e = 'n' then some (Char.ofNat 10)
  else if e = 'f' then some (Char.ofNat 12)
  else if e = 'r' then some (Char.ofNat 13)
  else none

/-- String-literal body parser of `JSON.parse` (after the opening quote):
returns the decoded characters and the input after the closing quote. -/
def parseStrBody : List Char → Option (List Char × List Char)
  | [] => none
  | c :: rest =>
    if c = quoteCh then some ([], rest)
    else if c = backslashCh then
      match rest with
      | [] => none
      | e :: rest2 =>
        if e = 'u' then
          match rest2 with
          | h1 :: h2 :: h3 :: h4 :: rest3 =>
            if isHexCh h1 && isHexCh h2 && isHexCh h3 && isHexCh h4 then
              (parseStrBody rest3).map fun p =>
                (Char.ofNat
                  (((hexVal h1 * 16 + hexVal h2) * 16 + hexVal h3) * 16 + hexVal h4)
                  :: p.1, p.2)
            else none
          | _ => none
        else
          match escDecode e with
          | some d => (parseStrBody rest2).map fun p => (d :: p.1, p.2)
          | none => none
    else (parseStrBody rest).map fun p => (c :: p.1, p.2)

/-- Digit-run parser: consumes leading decimal digits into an accumulator. -/
def parseDigits : Nat → List Char → Nat × List Char
  | acc, [] => (acc, [])
  | acc, c :: rest =>
    if isDigitCh c then parseDigits (acc * 10 + digitVal c) rest
    else (acc, c :: rest)

/-- Number parser of `JSON.parse`, restricted to the integer grammar (an
optional minus sign and a non-empty digit run) that matches the integer
embedding of JS numbers. -/
def parseNumber : List Char → Option (Int × List Char)
  | [] => none
  | c :: rest =>
    if c = '-' then
      match rest with
      | [] => none
      | c2 :: _ =>
        if isDigitCh c2 then
          let p := parseDigits 0 rest
          some (-(p.1 : Int), p.2)
        else none
    else
      if isDigitCh c then
        let p := parseDigits 0 (c :: rest)
        some ((p.1 : Int), p.2)
      else none

mutual

/-- Value parser of `JSON.parse` (modelled platform function), fuelled for
termination; accepts the whitespace-free grammar the serializer emits. -/
def parseVal : Nat → List Char → Option (JVal × List Char)
  | 0, _ => none
  | _ + 1, [] => none
  | fuel + 1, c :: rest =>
    if c = 'n' then
      match rest with
      | 'u' :: 'l' :: 'l' :: r => some (.jnull, r)
      | _ => none
    else if c = 't' then
      match rest with
      | 'r' :: 'u' :: 'e' :: r => some (.jbool true, r)
      | _ => none
    else if c = 'f' then
      match rest with
      | 'a' :: 'l' :: 's' :: 'e' :: r => some (.jbool false, r)
      | _ => none
    else if c = quoteCh then
      (parseStrBody rest).map fun p => (.jstr (String.mk p.1), p.2)
    else if c = '[' then parseArr fuel rest
    else if c = lbraceCh then parseObj fuel rest
    else (parseNumber (c :: rest)).map fun p => (.jnum p.1, p.2)

/-- Array parser, after the opening bracket. -/
def parseArr : Nat → List Char → Option (JVal × List Char)
  | 0, _ => none
  | _ + 1, [] => none
  | fuel + 1, c :: rest =>
    if c = ']' then some (.jarr [], rest)
    else
      match parseVal fuel (c :: rest) with
      | some (v, rest1) => parseArrTail fuel [v] rest1
      | none => none

/-- Array continuation parser: after a parsed element, expects `,` and a
further element or the closing bracket. -/
def parseArrTail : Nat → List JVal → List Char → Option (JVal × List Char)
  | 0, _, _ => none
  | _ + 1, _, [] => none
  | fuel + 1, acc, c :: rest =>
    if c = ']' then some (.jarr acc, rest)
    else if c = ',' then
      match parseVal fuel rest with
      | some (v, rest1) => parseArrTail fuel (acc ++ [v]) rest1
      | none => none
    else none

/-- Object parser, after the opening brace. -/
def parseObj : Nat → List Char → Option (JVal × List Char)
  | 0, _ => none
  | _ + 1, [] => none
  | fuel + 1, c :: rest =>
    if c = rbraceCh then some (.jobj [], rest)
    else if c = quoteCh then
      match parseStrBody rest with
      | some (kcs, rest1) =>
        match rest1 with
        | ':' :: rest2 =>
          match parseVal fuel rest2 with
          | some (v, rest3) => parseObjTail fuel [(String.mk kcs, v)] rest3
          | none => none
        | _ => none
      | none => none
    else none

/-- Object continuation parser: after a parsed field, expects `,` and a
further field or the closing brace. -/
def parseObjTail :
    Nat → List (String × JVal) → List Char → Option (JVal × List Char)
  | 0, _, _ => none
  | _ + 1, _, [] => none
  | fuel + 1, acc, c :: rest =>
    if c = rbraceCh then some (.jobj acc, rest)
    else if c = ',' then
      match rest with
      | q :: rest1 =>
        if q = quoteCh then
          match parseStrBody rest1 with
          | some (kcs, rest2) =>
            match rest2 with
            | ':' :: rest3 =>
              match parseVal fuel rest3 with
              | some (v, rest4) => parseObjTail fuel (acc ++ [(String.mk kcs, v)]) rest4
              | none => none
            | _ => none
          | none => none
        else none
      | [] => none
    else none

end

/-- Function `JSON.parse` (modelled platform function): parse a complete value; any
trailing input is a parse error. -/
def jsonParse (s : String) : Option JVal :=
  match parseVal (s.length + 1) s.data with
  | some (v, []) => some v
  | _ => none

/-- A JS object: a capability (prototype) link holding the inherited
members, and the own (data) fields. The capability type is abstract. -/
structure JSObject (Cap : Type) where
  proto : List (String × Cap)
  own : List (String × JVal)

/-- Function `Object.create(proto)` (modelled platform function): a fresh object with
the given prototype link and no own fields. -/
def objectCreate (Cap : Type) (proto : List (String × Cap)) : JSObject Cap :=
  { proto := proto, own := [] }

/-- Own enumerable fields of a parsed value, as copied by `Object.assign`;
only object sources carry fields in the modelled (plain-data) domain. -/
def fieldsOf : JVal → List (String × JVal)
  | .jobj fs => fs
  | _ => []

/-- Function `Object.assign(target, source)` (modelled platform function) for a
freshly created target: copies the source's own fields onto the target. A
parsed source never repeats a key, so plain append is the copy. -/
def objectAssign {Cap : Type} (o : JSObject Cap) (v : JVal) : JSObject Cap :=
  { o with own := o.own ++ fieldsOf v }

/-- Function `fromJSON(proto, json)`:
`return Object.assign(Object.create(proto), JSON.parse(json))`; a parse
failure propagates (modelled by `Option`). -/
def fromJSON {Cap : Type} (proto : List (String × Cap)) (json : String) :
    Option (JSObject Cap) :=
  (jsonParse json).map fun v => objectAssign (objectCreate Cap proto) v

/-- Member access on a JS object: own fields shadow the prototype; an
inherited member is reached through the capability link as a non-own
member. -/
def getMember {Cap : Type} (o : JSObject Cap) (k : String) :
    Option (Sum JVal Cap) :=
  match o.own.lookup k with
  | some v => some (.inl v)
  | none => (o.proto.lookup k).map .inr

/-- Value of a digit run, most significant first. -/
def digitsToNat (cs : List Char) : Nat :=
  cs.foldl (fun a c => a * 10 + digitVal c) 0

/-- Whether a key is an ECMAScript array index: the canonical decimal form
of an integer below 2^32 - 1. -/
def isArrayIndexKey (s : String) : Bool :=
  match s.data with
  | [] => false
  | cs =>
      cs.all (fun c => isDigitCh c) && natChars (digitsToNat cs) == cs
        && digitsToNat cs < 4294967295

/-- Numeric value of an array-index key. -/
def arrayIndexVal (s : String) : Nat := digitsToNat s.data

/-- Insertion of a field into a list sorted by ascending array-index
value. -/
def insertIdx (e : String × JVal) :
    List (String × JVal) → List (String × JVal)
  | [] => [e]
  | x :: xs =>
      if arrayIndexVal e.1 ≤ arrayIndexVal x.1 then e :: x :: xs
      else x :: insertIdx e xs

/-- Insertion sort of fields by ascending array-index value. -/
def sortIdx : List (String × JVal) → List (String × JVal)
  | [] => []
  | x :: xs => insertIdx x (sortIdx xs)

/-- Modelled from ECMAScript `OrdinaryOwnPropertyKeys`: the property order
of an object built by inserting `entries` (distinct keys) in order is the
array-index keys in ascending numeric order, then the remaining keys in
insertion order. -/
def canonicalKeyOrder (entries : List (String × JVal)) :
    List (String × JVal) :=
  sortIdx (entries.filter fun e => isArrayIndexKey e.1)
    ++ entries.filter fun e => !isArrayIndexKey e.1

/-- The object value a JS object literal built from `entries` denotes: its
fields sit in canonical property order. -/
def mkJSObjectValue (entries : List (String × JVal)) : JVal :=
  .jobj (canonicalKeyOrder entries)

/-- Rendering of one object field: quoted escaped key, colon, value. -/
def renderField (f : String × JVal) : String :=
  String.mk (quoteCh :: strBody f.1.data) ++ ":" ++ jsonStringify f.2

/-- Comma-separated join. -/
def joinComma : List String → String
  | [] => ""
  | [x] => x
  | x :: xs => x ++ "," ++ joinComma xs

/-- Join in which every element is preceded by a comma. -/
def commaJoinAll : List String → String
  | [] => ""
  | x :: xs => "," ++ x ++ commaJoinAll xs

mutual

/-- Fuel sufficient for `parseVal` on the serialized form of a value. -/
def jfuel : JVal → Nat
  | .jnull => 1
  | .jbool _ => 1
  | .jnum _ => 1
  | .jstr _ => 1
  | .jarr vs => 1 + jfuelArr vs
  | .jobj fs => 1 + jfuelObj fs

/-- Fuel sufficient for `parseArr` on serialized elements. -/
def jfuelArr : List JVal → Nat
  | [] => 1
  | v :: vs => 1 + max (jfuel v) (jfuelTail vs)

/-- Fuel sufficient for `parseArrTail` on serialized elements. -/
def jfuelTail : List JVal → Nat
  | [] => 1
  | v :: vs => 1 + max (jfuel v) (jfuelTail vs)

/-- Fuel sufficient for `parseObj` on serialized fields. -/
def jfuelObj : List (String × JVal) → Nat
  | [] => 1
  | (_, v) :: fs => 1 + max (jfuel v) (jfuelObjTail fs)

/-- Fuel sufficient for `parseObjTail` on serialized fields. -/
def jfuelObjTail : List (String × JVal) → Nat
  | [] => 1
  | (_, v) :: fs => 1 + max (jfuel v) (jfuelObjTail fs)

end

/-- Truth of `NotDigitStart l`: `l` is empty or starts with a non-digit. -/
def NotDigitStart : List Char → Prop
  | [] => True
  | c :: _ => isDigitCh c = false

/-- Characters that can begin a serialized value. -/
def ValueStartCh (c : Char) : Prop :=
  c = 'n' ∨ c = 't' ∨ c = 'f' ∨ c = quoteCh ∨ c = '[' ∨ c = lbraceCh ∨ c = '-'
    ∨ isDigitCh c = true

namespace CSSSelector

/-- Every part method is `checkStructure` for its kind followed by appending
the literal rendering of the part to `this.css`. -/
lemma applyPart_eq (k : Kind) (v : String) (s : CSSSelector) :
    applyPart k v s =
      (checkStructure k s).map fun s1 => { s1 with css := s1.css ++ render k v } := by
  cases k <;> cases hc : checkStructure _ s <;>
    simp [applyPart, element, id, class', attr, pseudoClass, pseudoElement,
      render, hc, Except.map, String.append_assoc]

/-- Validation `checkStructure` succeeds, pushing the kind, when neither error condition
fires. -/
lemma checkStructure_ok (k : Kind) (s : CSSSelector)
    (hu : ¬(k ∈ uniqs ∧ k ∈ s.structure'))
    (ho : ∀ l, s.structure'.getLast? = some l → order l ≤ order k) :
    checkStructure k s = .ok { s with structure' := s.structure' ++ [k] } := by
  unfold checkStructure
  rw [if_neg hu]
  cases hg : s.structure'.getLast? with
  | none => rfl
  | some l => simp only [if_neg (not_lt.mpr (ho l hg))]

/-- Validation `checkStructure` throws the uniqueness error on a repeated singleton
kind. -/
lemma checkStructure_err_uniq (k : Kind) (s : CSSSelector)
    (h : k ∈ uniqs ∧ k ∈ s.structure') :
    checkStructure k s = .error (msgUniqs, s) := by
  unfold checkStructure; rw [if_pos h]

/-- Validation `checkStructure` throws the order error on a strict rank decrease when
the uniqueness condition does not fire. -/
lemma checkStructure_err_order (k : Kind) (s : CSSSelector) (l : Kind)
    (hu : ¬(k ∈ uniqs ∧ k ∈ s.structure'))
    (hg : s.structure'.getLast? = some l) (hlt : order k < order l) :
    checkStructure k s = .error (msgOrder, s) := by
  unfold checkStructure
  rw [if_neg hu]
  simp only [hg, if_pos hlt]

/-- Inversion of a successful `checkStructure`: the kind was pushed and both
error conditions were false. -/
lemma checkStructure_ok_inv {k : Kind} {s s' : CSSSelector}
    (h : checkStructure k s = .ok s') :
    s' = { s with structure' := s.structure' ++ [k] } ∧
      ¬(k ∈ uniqs ∧ k ∈ s.structure') ∧
      ∀ l, s.structure'.getLast? = some l → order l ≤ order k := by
  unfold checkStructure at h
  by_cases hu : k ∈ uniqs ∧ k ∈ s.structure'
  · rw [if_pos hu] at h; exact absurd h (by simp)
  · rw [if_neg hu] at h
    cases hg : s.structure'.getLast? with
    | none =>
      simp only [hg] at h
      refine ⟨by simpa using h.symm, hu, ?_⟩
      intro l hl
      exact Option.noConfusion hl
    | some l =>
      simp only [hg] at h
      by_cases hlt : order k < order l
      · rw [if_pos hlt] at h; exact absurd h (by simp)
      · rw [if_neg hlt] at h
        refine ⟨by simpa using h.symm, hu, ?_⟩
        intro l' hl'
        have hll : l = l' := Option.some.inj hl'
        subst hll
        exact not_lt.mp hlt

/-- Any error thrown by `checkStructure` carries the entry state. -/
lemma checkStructure_error_inv {k : Kind} {s : CSSSelector} {e : String × CSSSelector}
    (h : checkStructure k s = .error e) : e.2 = s := by
  unfold checkStructure at h
  by_cases hu : k ∈ uniqs ∧ k ∈ s.structure'
  · rw [if_pos hu] at h
    cases h; rfl
  · rw [if_neg hu] at h
    cases hg : s.structure'.getLast? with
    | none => simp only [hg] at h; exact absurd h (by simp)
    | some l =>
      simp only [hg] at h
      by_cases hlt : order k < order l
      · rw [if_pos hlt] at h; cases h; rfl
      · rw [if_neg hlt] at h; exact absurd h (by simp)

/-- Inversion of a successful part-method call. -/
lemma applyPart_ok_inv {k : Kind} {v : String} {s s' : CSSSelector}
    (h : applyPart k v s = .ok s') :
    s' = { s with css := s.css ++ render k v, structure' := s.structure' ++ [k] } ∧
      ¬(k ∈ uniqs ∧ k ∈ s.structure') ∧
      ∀ l, s.structure'.getLast? = some l → order l ≤ order k := by
  rw [applyPart_eq] at h
  cases hc : checkStructure k s with
  | error e => rw [hc] at h; exact absurd h (by simp [Except.map])
  | ok s1 =>
    rw [hc] at h
    obtain ⟨h1, h2, h3⟩ := checkStructure_ok_inv hc
    simp only [Except.map, Except.ok.injEq] at h
    exact ⟨by rw [← h, h1], h2, h3⟩

end CSSSelector

namespace CSSSelector

/-- Running a call list from a state whose combined kind sequence is weakly
increasing in rank, with each singleton kind occurring at most once overall,
never throws and appends exactly the concatenated literal renderings. -/
lemma runCalls_ok_of_valid (calls : List (Kind × String)) (s : CSSSelector)
    (hchain : List.Chain' (fun a b => order a ≤ order b)
      (s.structure' ++ calls.map Prod.fst))
    (hcount : ∀ k ∈ uniqs, (s.structure' ++ calls.map Prod.fst).count k ≤ 1) :
    runCalls calls s =
      .ok { css := s.css ++ concatRenders calls,
            structure' := s.structure' ++ calls.map Prod.fst } := by
  induction calls generalizing s with
  | nil => simp [runCalls, concatRenders]
  | cons c rest ih =>
    obtain ⟨k, v⟩ := c
    simp only [List.map_cons] at hchain hcount
    have hu : ¬(k ∈ uniqs ∧ k ∈ s.structure') := by
      rintro ⟨hk, hmem⟩
      have hc := hcount k hk
      rw [List.count_append, List.count_cons_self] at hc
      have hpos : 0 < s.structure'.count k := List.count_pos_iff.mpr hmem
      omega
    have ho : ∀ l, s.structure'.getLast? = some l → order l ≤ order k := by
      intro l hl
      obtain ⟨-, -, hrel⟩ := List.chain'_append.mp hchain
      exact hrel l hl k rfl
    have hstep : applyPart k v s =
        .ok { s with
                css := s.css ++ render k v,
                structure' := s.structure' ++ [k] } := by
      rw [applyPart_eq, checkStructure_ok k s hu ho]
      rfl
    have hunf : runCalls ((k, v) :: rest) s
        = (applyPart k v s).bind (runCalls rest) := rfl
    rw [hunf, hstep]
    show runCalls rest _ = _
    rw [ih _ (by simpa [List.append_assoc] using hchain)
      (by intro k' hk'; simpa [List.append_assoc] using hcount k' hk')]
    simp [concatRenders, String.append_assoc, List.append_assoc]

end CSSSelector

/-- C1: for every sequence of part-method calls whose kinds are weakly
increasing in rank and in which element, id and pseudoElement each occur at
most once, no call raises, and `stringify()` returns the concatenation, in
call order, of each part's literal rendering. -/
theorem valid_sequence_builds_concatenation (calls : List (Kind × String))
    (hchain : List.Chain' (fun a b => CSSSelector.order a ≤ CSSSelector.order b)
      (calls.map Prod.fst))
    (hcount : ∀ k ∈ CSSSelector.uniqs, (calls.map Prod.fst).count k ≤ 1) :
    CSSSelector.runCalls calls ⟨"", []⟩ =
      .ok { css := CSSSelector.concatRenders calls,
            structure' := calls.map Prod.fst } ∧
    ∀ s', CSSSelector.runCalls calls ⟨"", []⟩ = .ok s' →
      s'.stringify = CSSSelector.concatRenders calls := by
  have main := CSSSelector.runCalls_ok_of_valid calls ⟨"", []⟩
    (by simpa using hchain) (by intro k hk; simpa using hcount k hk)
  rw [show ("" ++ CSSSelector.concatRenders calls)
      = CSSSelector.concatRenders calls from String.empty_append _] at main
  rw [show (([] : List Kind) ++ calls.map Prod.fst) = calls.map Prod.fst from rfl] at main
  refine ⟨main, ?_⟩
  intro s' h
  rw [main] at h
  have := Except.ok.inj h
  rw [← this]
  rfl

/-- Witness for C1 at a concrete valid call sequence. -/
theorem valid_sequence_builds_concatenation_witness :
    CSSSelector.runCalls
        [(.element, "a"), (.id, "b"), (.class', "x"), (.class', "y"),
         (.attr, "q"), (.pseudoClass, "p"), (.pseudoElement, "z")] ⟨"", []⟩ =
      .ok { css := "a#b.x.y[q]:p::z",
            structure' := [.element, .id, .class', .class', .attr,
              .pseudoClass, .pseudoElement] } :=
  ((valid_sequence_builds_concatenation
    [(.element, "a"), (.id, "b"), (.class', "x"), (.class', "y"),
     (.attr, "q"), (.pseudoClass, "p"), (.pseudoElement, "z")]
    (by simp [List.chain'_cons, CSSSelector.order]) (by decide)).1).trans (by rfl)

/-- C2: with a non-empty part sequence, a strictly rank-decreasing append
raises the order error (when the uniqueness check does not fire first), an
equal-rank append of a non-singleton kind succeeds; `id('x').element('y')`
raises the order error, and `class('a').class('b').stringify()` is `.a.b`. -/
theorem strict_rank_decrease_raises_order_error :
    (∀ (s : CSSSelector) (k : Kind) (v : String) (l : Kind),
        s.structure'.getLast? = some l →
        CSSSelector.order k < CSSSelector.order l →
        ¬(k ∈ CSSSelector.uniqs ∧ k ∈ s.structure') →
        CSSSelector.applyPart k v s = .error (CSSSelector.msgOrder, s)) ∧
    (∀ (s : CSSSelector) (k : Kind) (v : String) (l : Kind),
        s.structure'.getLast? = some l →
        CSSSelector.order k = CSSSelector.order l →
        k ∉ CSSSelector.uniqs →
        CSSSelector.applyPart k v s =
          .ok { s with
                  css := s.css ++ CSSSelector.render k v,
                  structure' := s.structure' ++ [k] }) ∧
    (cssSelectorBuilder.id "x").bind (CSSSelector.element "y")
      = .error (CSSSelector.msgOrder, { css := "#x", structure' := [.id] }) ∧
    ((cssSelectorBuilder.class' ("a")).bind (CSSSelector.class' ("b"))).map
      CSSSelector.stringify = .ok ".a.b" := by
  refine ⟨?_, ?_, by rfl, by rfl⟩
  · intro s k v l hg hlt hu
    rw [CSSSelector.applyPart_eq, CSSSelector.checkStructure_err_order k s l hu hg hlt]
    rfl
  · intro s k v l hg heq hnot
    have hu : ¬(k ∈ CSSSelector.uniqs ∧ k ∈ s.structure') := fun hc => hnot hc.1
    have ho : ∀ l2, s.structure'.getLast? = some l2 →
        CSSSelector.order l2 ≤ CSSSelector.order k := by
      intro l2 hl2
      have hl2l : l2 = l := Option.some.inj (hl2.symm.trans hg)
      rw [hl2l, ← heq]
    rw [CSSSelector.applyPart_eq, CSSSelector.checkStructure_ok k s hu ho]
    rfl

/-- Witness for C2 (general components) at concrete inputs. -/
theorem strict_rank_decrease_raises_order_error_witness :
    CSSSelector.applyPart .element "y" { css := "#x", structure' := [.id] }
        = .error (CSSSelector.msgOrder, { css := "#x", structure' := [.id] }) ∧
    CSSSelector.applyPart .class' ("b") { css := ".a", structure' := [.class'] }
        = .ok { css := ".a.b", structure' := [.class', .class'] } :=
  ⟨strict_rank_decrease_raises_order_error.1
      { css := "#x", structure' := [.id] } .element "y" .id
      (by decide) (by decide) (by decide),
    (strict_rank_decrease_raises_order_error.2.1
      { css := ".a", structure' := [.class'] } .class' ("b") .class'
      (by decide) (by decide) (by decide)).trans (by rfl)⟩

/-- C3: appending a singleton kind (element, id, pseudoElement) already
present anywhere in the part sequence raises the uniqueness error, before
the order check; `element('a').id('b').element('c')` raises the uniqueness
error, which is distinct from the order error. -/
theorem repeated_singleton_raises_uniqueness_error :
    (∀ (s : CSSSelector) (k : Kind) (v : String), k ∈ CSSSelector.uniqs →
        k ∈ s.structure' →
        CSSSelector.applyPart k v s = .error (CSSSelector.msgUniqs, s)) ∧
    CSSSelector.runCalls [(.element, "a"), (.id, "b"), (.element, "c")] ⟨"", []⟩
      = .error (CSSSelector.msgUniqs, { css := "a#b", structure' := [.element, .id] }) ∧
    CSSSelector.msgUniqs ≠ CSSSelector.msgOrder := by
  refine ⟨?_, by rfl, by decide⟩
  intro s k v h1 h2
  rw [CSSSelector.applyPart_eq, CSSSelector.checkStructure_err_uniq k s ⟨h1, h2⟩]
  rfl

/-- Witness for C3 at a concrete input: the third call of
`element('a').id('b').element('c')` raises the uniqueness error even though
its rank is also out of order. -/
theorem repeated_singleton_raises_uniqueness_error_witness :
    CSSSelector.applyPart .element "c" { css := "a#b", structure' := [.element, .id] }
      = .error (CSSSelector.msgUniqs, { css := "a#b", structure' := [.element, .id] }) :=
  repeated_singleton_raises_uniqueness_error.1
    { css := "a#b", structure' := [.element, .id] } .element "c"
    (by decide) (by decide)

/-- C4: `combine` appends exactly `left.stringify() + " " + c + " " +
right.stringify()` to the receiver's text, leaves the part sequence
untouched (no ordering or uniqueness validation can fire, it never throws),
and the facade example renders `div + #main`. -/
theorem combine_appends_and_skips_validation :
    (∀ (s left : CSSSelector) (c : String) (right : CSSSelector),
        (CSSSelector.combine left c right s).css
            = s.css ++ left.stringify ++ " " ++ c ++ " " ++ right.stringify ∧
        (CSSSelector.combine left c right s).structure' = s.structure') ∧
    ((cssSelectorBuilder.element "div").bind fun l =>
        (cssSelectorBuilder.id "main").map fun r =>
          (cssSelectorBuilder.combine l "+" r).stringify) = .ok "div + #main" :=
  ⟨fun _ _ _ _ => ⟨rfl, rfl⟩, rfl⟩

/-- C5: every builder state reachable by successful part-method and
`combine` calls has a part sequence that is monotonically non-decreasing in
rank, with each singleton kind occurring at most once. -/
theorem reachable_satisfies_invariant (s : CSSSelector)
    (h : CSSSelector.Reachable s) : CSSSelector.Inv s := by
  induction h with
  | init => exact ⟨List.chain'_nil, by intro k _; simp⟩
  | part hr hok ih =>
    rename_i k v s0 s1
    obtain ⟨heq, hu, ho⟩ := CSSSelector.applyPart_ok_inv hok
    subst heq
    obtain ⟨ihc, ihk⟩ := ih
    constructor
    · refine List.chain'_append.mpr ⟨ihc, List.chain'_singleton _, ?_⟩
      intro x hx y hy
      have hx' : s0.structure'.getLast? = some x := hx
      have hy' : y = k := by
        have : (some k : Option Kind) = some y := hy
        exact (Option.some.inj this).symm
      rw [hy']
      exact ho x hx'
    · intro k' hk'
      rw [List.count_append]
      by_cases hkk : k' = k
      · subst hkk
        have hnm : k' ∉ s0.structure' := fun hm => hu ⟨hk', hm⟩
        rw [List.count_eq_zero.mpr hnm]
        simp
      · have h1 : s0.structure'.count k' ≤ 1 := ihk k' hk'
        have h2 : ([k] : List Kind).count k' = 0 := by
          simp [List.count_singleton', hkk]
        omega
  | comb l c r _ ih => exact ih

/-- Witness for C5 at a concrete reachable state. -/
theorem reachable_satisfies_invariant_witness :
    CSSSelector.Inv { css := "a", structure' := [.element] } :=
  reachable_satisfies_invariant _
    (@CSSSelector.Reachable.part .element "a" { css := "", structure' := [] }
      { css := "a", structure' := [.element] }
      CSSSelector.Reachable.init (by rfl))

/-- C6: `stringify()` returns the accumulated text and mutates nothing (it
is a pure read of `this.css`), and the facade's bare `stringify()` entry
point returns the empty string. -/
theorem stringify_is_pure_read :
    (∀ s : CSSSelector, s.stringify = s.css) ∧ cssSelectorBuilder.stringify = "" :=
  ⟨fun _ => rfl, rfl⟩

/-- C7: a part-method call that throws (either error kind) leaves the
builder exactly as it was: the state carried by the thrown error is the
entry state. -/
theorem failed_call_preserves_state (s : CSSSelector) (k : Kind) (v : String)
    (m : String) (s' : CSSSelector)
    (h : CSSSelector.applyPart k v s = .error (m, s')) : s' = s := by
  rw [CSSSelector.applyPart_eq] at h
  cases hc : CSSSelector.checkStructure k s with
  | ok s1 =>
    rw [hc] at h
    exact absurd h (by simp [Except.map])
  | error e =>
    rw [hc] at h
    simp only [Except.map] at h
    have he := CSSSelector.checkStructure_error_inv hc
    injection h with h2
    rw [h2] at he
    exact he

/-- Witness for C7: the failing `element('y')` call on the `#x` builder
leaves that builder unchanged. -/
theorem failed_call_preserves_state_witness :
    ({ css := "#x", structure' := [.id] } : CSSSelector)
      = { css := "#x", structure' := [.id] } :=
  failed_call_preserves_state { css := "#x", structure' := [.id] } .element "y"
    CSSSelector.msgOrder { css := "#x", structure' := [.id] } (by rfl)

/-- Characters from valid codepoints keep their codepoint. -/
lemma charToNat_ofNat {n : Nat} (h : n.isValidChar) : (Char.ofNat n).toNat = n := by
  unfold Char.ofNat
  rw [dif_pos h]
  rfl

/-- Codepoint of a decimal digit character. -/
lemma digitChar_toNat {d : Nat} (h : d < 10) : (digitChar d).toNat = 48 + d :=
  charToNat_ofNat (Or.inl (by omega))

/-- A decimal digit character is a digit. -/
lemma isDigitCh_digitChar {d : Nat} (h : d < 10) : isDigitCh (digitChar d) = true := by
  simp [isDigitCh, digitChar_toNat h]
  omega

/-- Value of a decimal digit character. -/
lemma digitVal_digitChar {d : Nat} (h : d < 10) : digitVal (digitChar d) = d := by
  simp [digitVal, digitChar_toNat h]

/-- The fuelled digit renderer ignores the exact fuel above the value. -/
lemma natCharsAux_congr :
    ∀ f1 n, n < f1 → ∀ f2, n < f2 → natCharsAux f1 n = natCharsAux f2 n := by
  intro f1
  induction f1 with
  | zero => intro n hn; omega
  | succ f ih =>
    intro n hn f2 hn2
    cases f2 with
    | zero => omega
    | succ g =>
      simp only [natCharsAux]
      by_cases h10 : n < 10
      · simp [h10]
      · have hdiv : n / 10 < n := Nat.div_lt_self (by omega) (by omega)
        simp only [h10, if_false]
        rw [ih (n / 10) (by omega) g (by omega)]

/-- Unfolding equation of `natChars`. -/
lemma natChars_eq (n : Nat) :
    natChars n =
      if n < 10 then [digitChar n]
      else natChars (n / 10) ++ [digitChar (n % 10)] := by
  by_cases h10 : n < 10
  · rw [if_pos h10]
    show natCharsAux (n + 1) n = _
    simp [natCharsAux, h10]
  · rw [if_neg h10]
    show natCharsAux (n + 1) n = natChars (n / 10) ++ [digitChar (n % 10)]
    have h1 : natCharsAux (n + 1) n = natCharsAux n (n / 10) ++ [digitChar (n % 10)] := by
      simp [natCharsAux, h10]
    rw [h1]
    have hdiv : n / 10 < n := Nat.div_lt_self (by omega) (by omega)
    rw [natCharsAux_congr n (n / 10) hdiv (n / 10 + 1) (by omega)]
    rfl

/-- A rendered natural number starts with a digit character. -/
lemma natChars_head (n : Nat) :
    ∃ d t, natChars n = d :: t ∧ isDigitCh d = true := by
  induction n using Nat.strong_induction_on with
  | _ n ih =>
    rw [natChars_eq]
    by_cases h10 : n < 10
    · exact ⟨digitChar n, [], by simp [h10], isDigitCh_digitChar h10⟩
    · have hdiv : n / 10 < n := Nat.div_lt_self (by omega) (by omega)
      obtain ⟨d, t, hd, hdig⟩ := ih (n / 10) hdiv
      exact ⟨d, t ++ [digitChar (n % 10)], by simp [h10, hd], hdig⟩

/-- Digit-run parsing of a rendered natural number followed by anything. -/
lemma parseDigits_natChars :
    ∀ n acc rest,
      parseDigits acc (natChars n ++ rest)
        = parseDigits (acc * 10 ^ (natChars n).length + n) rest := by
  intro n
  induction n using Nat.strong_induction_on with
  | _ n ih =>
    intro acc rest
    by_cases h10 : n < 10
    · rw [natChars_eq]
      simp only [h10, if_true]
      simp only [List.singleton_append, parseDigits, isDigitCh_digitChar h10,
        if_true, digitVal_digitChar h10, List.length_singleton, pow_one,
        List.nil_append, List.append_eq]
    · have hdiv : n / 10 < n := Nat.div_lt_self (by omega) (by omega)
      have hkey : natChars n = natChars (n / 10) ++ [digitChar (n % 10)] := by
        rw [natChars_eq]; simp [h10]
      rw [hkey, List.append_assoc, List.singleton_append,
        ih (n / 10) hdiv acc (digitChar (n % 10) :: rest)]
      have hm : n % 10 < 10 := Nat.mod_lt _ (by omega)
      simp only [parseDigits, isDigitCh_digitChar hm, if_true, digitVal_digitChar hm]
      have harith :
          (acc * 10 ^ (natChars (n / 10)).length + n / 10) * 10 + n % 10
            = acc * 10 ^ (natChars (n / 10) ++ [digitChar (n % 10)]).length + n := by
        have hdm := Nat.div_add_mod n 10
        simp only [List.length_append, List.length_singleton, pow_succ]
        ring_nf
        omega
      rw [harith]

/-- Digit-run parsing stops at a non-digit (or empty) remainder. -/
lemma parseDigits_notDigitStart :
    ∀ acc rest, NotDigitStart rest → parseDigits acc rest = (acc, rest) := by
  intro acc rest h
  cases rest with
  | nil => rfl
  | cons c r =>
    have hc : isDigitCh c = false := h
    simp [parseDigits, hc]

/-- Number parsing of a rendered integer followed by a non-digit remainder. -/
lemma parseNumber_intChars (n : Int) (rest : List Char) (h : NotDigitStart rest) :
    parseNumber (intChars n ++ rest) = some (n, rest) := by
  by_cases hneg : n < 0
  · have hm : intChars n = '-' :: natChars (-n).toNat := by simp [intChars, hneg]
    obtain ⟨d, t, hd, hdig⟩ := natChars_head (-n).toNat
    have hpd : parseDigits 0 (natChars (-n).toNat ++ rest) = ((-n).toNat, rest) := by
      rw [parseDigits_natChars, parseDigits_notDigitStart _ _ h]
      simp
    rw [hm]
    simp only [List.cons_append, parseNumber, if_pos rfl]
    rw [hd]
    simp only [List.cons_append, hdig, if_true]
    rw [← List.cons_append, ← hd, hpd]
    have : -(((-n).toNat : Int)) = n := by omega
    rw [this]
  · have hm : intChars n = natChars n.toNat := by simp [intChars, hneg]
    obtain ⟨d, t, hd, hdig⟩ := natChars_head n.toNat
    have hpd : parseDigits 0 (natChars n.toNat ++ rest) = (n.toNat, rest) := by
      rw [parseDigits_natChars, parseDigits_notDigitStart _ _ h]
      simp
    have hdm : d ≠ '-' := by
      intro he
      rw [he] at hdig
      exact absurd hdig (by decide)
    rw [hm, hd]
    simp only [List.cons_append, parseNumber, if_neg hdm, hdig, if_true]
    rw [← List.cons_append, ← hd, hpd]
    have : ((n.toNat : Int)) = n := by omega
    rw [this]

/-- Hex value of a rendered hex digit. -/
lemma hexVal_hexDigit {d : Nat} (h : d < 16) : hexVal (hexDigit d) = d := by
  by_cases h10 : d < 10
  · have h1 : (hexDigit d).toNat = 48 + d := by
      unfold hexDigit; rw [if_pos h10]; exact charToNat_ofNat (Or.inl (by omega))
    unfold hexVal
    rw [h1, if_pos ⟨by omega, by omega⟩]
    omega
  · have h1 : (hexDigit d).toNat = 87 + d := by
      unfold hexDigit; rw [if_neg h10]; exact charToNat_ofNat (Or.inl (by omega))
    unfold hexVal
    rw [h1, if_neg (by omega), if_pos ⟨by omega, by omega⟩]
    omega

/-- A rendered hex digit is a hex digit character. -/
lemma isHexCh_hexDigit {d : Nat} (h : d < 16) : isHexCh (hexDigit d) = true := by
  by_cases h10 : d < 10
  · have h1 : (hexDigit d).toNat = 48 + d := by
      unfold hexDigit; rw [if_pos h10]; exact charToNat_ofNat (Or.inl (by omega))
    simp [isHexCh, isDigitCh, h1]
    omega
  · have h1 : (hexDigit d).toNat = 87 + d := by
      unfold hexDigit; rw [if_neg h10]; exact charToNat_ofNat (Or.inl (by omega))
    simp [isHexCh, isDigitCh, h1]
    omega

/-- String-body parsing of a single-character escape. -/
lemma parseStrBody_escape (e d : Char) (he : e ≠ 'u') (hd : escDecode e = some d)
    (l : List Char) :
    parseStrBody (backslashCh :: e :: l)
      = (parseStrBody l).map fun p => (d :: p.1, p.2) := by
  have h1 : ¬(backslashCh = quoteCh) := by decide
  conv_lhs => unfold parseStrBody
  simp only [h1, ite_false, ite_true, eq_self_iff_true, he, hd, if_false, if_true]

/-- String-body parsing of a `\u00XX` escape. -/
lemma parseStrBody_unicode (h3 h4 : Char) (hh3 : isHexCh h3 = true)
    (hh4 : isHexCh h4 = true) (l : List Char) :
    parseStrBody (backslashCh :: 'u' :: '0' :: '0' :: h3 :: h4 :: l)
      = (parseStrBody l).map fun p =>
          (Char.ofNat (hexVal h3 * 16 + hexVal h4) :: p.1, p.2) := by
  have h1 : ¬(backslashCh = quoteCh) := by decide
  have h0 : isHexCh '0' = true := by decide
  have hv0 : hexVal '0' = 0 := by decide
  conv_lhs => unfold parseStrBody
  simp only [h1, ite_false, ite_true, eq_self_iff_true, h0, hh3, hh4,
    Bool.and_self, Bool.true_and, Bool.and_true, if_false, if_true, hv0]
  norm_num

/-- String-body parsing inverts escaping. -/
lemma parseStrBody_strBody :
    ∀ cs rest, parseStrBody (strBody cs ++ rest) = some (cs, rest) := by
  intro cs
  induction cs with
  | nil =>
    intro rest
    show parseStrBody (quoteCh :: rest) = _
    conv_lhs => unfold parseStrBody
    simp
  | cons c cs ih =>
    intro rest
    show parseStrBody ((escapeChar c ++ strBody cs) ++ rest) = _
    rw [List.append_assoc]
    by_cases hq : c = quoteCh
    · subst hq
      rw [show escapeChar quoteCh = [backslashCh, quoteCh] from by decide]
      simp only [List.cons_append, List.nil_append]
      rw [parseStrBody_escape quoteCh quoteCh (by decide) (by decide), ih]
      rfl
    · by_cases hb : c = backslashCh
      · subst hb
        rw [show escapeChar backslashCh = [backslashCh, backslashCh] from by decide]
        simp only [List.cons_append, List.nil_append]
        rw [parseStrBody_escape backslashCh backslashCh (by decide) (by decide), ih]
        rfl
      · by_cases h8 : c = Char.ofNat 8
        · subst h8
          rw [show escapeChar (Char.ofNat 8) = [backslashCh, 'b'] from by decide]
          simp only [List.cons_append, List.nil_append]
          rw [parseStrBody_escape 'b' (Char.ofNat 8) (by decide) (by decide), ih]
          rfl
        · by_cases h9 : c = Char.ofNat 9
          · subst h9
            rw [show escapeChar (Char.ofNat 9) = [backslashCh, 't'] from by decide]
            simp only [List.cons_append, List.nil_append]
            rw [parseStrBody_escape 't' (Char.ofNat 9) (by decide) (by decide), ih]
            rfl
          · by_cases h10 : c = Char.ofNat 10
            · subst h10
              rw [show escapeChar (Char.ofNat 10) = [backslashCh, 'n'] from by decide]
              simp only [List.cons_append, List.nil_append]
              rw [parseStrBody_escape 'n' (Char.ofNat 10) (by decide) (by decide), ih]
              rfl
            · by_cases h12 : c = Char.ofNat 12
              · subst h12
                rw [show escapeChar (Char.ofNat 12) = [backslashCh, 'f'] from by decide]
                simp only [List.cons_append, List.nil_append]
                rw [parseStrBody_escape 'f' (Char.ofNat 12) (by decide) (by decide), ih]
                rfl
              · by_cases h13 : c = Char.ofNat 13
                · subst h13
                  rw [show escapeChar (Char.ofNat 13) = [backslashCh, 'r'] from by decide]
                  simp only [List.cons_append, List.nil_append]
                  rw [parseStrBody_escape 'r' (Char.ofNat 13) (by decide) (by decide), ih]
                  rfl
                · by_cases hctl : c.toNat < 32
                  · have hes : escapeChar c = [backslashCh, 'u', '0', '0',
                        hexDigit (c.toNat / 16), hexDigit (c.toNat % 16)] := by
                      unfold escapeChar
                      rw [if_neg hq, if_neg hb, if_neg h8, if_neg h9, if_neg h10,
                        if_neg h12, if_neg h13, if_pos hctl]
                    rw [hes]
                    simp only [List.cons_append, List.nil_append]
                    rw [parseStrBody_unicode (hexDigit (c.toNat / 16))
                      (hexDigit (c.toNat % 16)) (isHexCh_hexDigit (by omega))
                      (isHexCh_hexDigit (by omega)), ih]
                    have harith : hexVal (hexDigit (c.toNat / 16)) * 16
                        + hexVal (hexDigit (c.toNat % 16)) = c.toNat := by
                      rw [hexVal_hexDigit (by omega), hexVal_hexDigit (by omega)]
                      omega
                    rw [harith, Char.ofNat_toNat]
                    rfl
                  · have hes : escapeChar c = [c] := by
                      unfold escapeChar
                      rw [if_neg hq, if_neg hb, if_neg h8, if_neg h9, if_neg h10,
                        if_neg h12, if_neg h13, if_neg hctl]
                    rw [hes]
                    simp only [List.cons_append, List.nil_append]
                    conv_lhs => unfold parseStrBody
                    simp only [if_neg hq, if_neg hb, ih]
                    rfl

/-- A serialized value is non-empty and begins with a value-start
character. -/
lemma sChars_head (v : JVal) : ∃ c t, sChars v = c :: t ∧ ValueStartCh c := by
  cases v with
  | jnull => exact ⟨'n', ['u', 'l', 'l'], by simp [sChars], Or.inl rfl⟩
  | jbool b =>
    cases b with
    | false =>
        exact ⟨'f', ['a', 'l', 's', 'e'], by simp [sChars],
          Or.inr (Or.inr (Or.inl rfl))⟩
    | true =>
        exact ⟨'t', ['r', 'u', 'e'], by simp [sChars], Or.inr (Or.inl rfl)⟩
  | jnum n =>
    by_cases hneg : n < 0
    · refine ⟨'-', natChars (-n).toNat, ?_, ?_⟩
      · simp [sChars, intChars, hneg]
      · exact Or.inr (Or.inr (Or.inr (Or.inr (Or.inr (Or.inr (Or.inl rfl))))))
    · obtain ⟨d, t, hd, hdig⟩ := natChars_head n.toNat
      refine ⟨d, t, ?_, ?_⟩
      · simp [sChars, intChars, hneg, hd]
      · exact Or.inr (Or.inr (Or.inr (Or.inr (Or.inr (Or.inr (Or.inr hdig))))))
  | jstr s =>
    exact ⟨quoteCh, strBody s.data, by simp [sChars],
      Or.inr (Or.inr (Or.inr (Or.inl rfl)))⟩
  | jarr vs =>
    exact ⟨'[', arrChars vs, by simp [sChars],
      Or.inr (Or.inr (Or.inr (Or.inr (Or.inl rfl))))⟩
  | jobj fs =>
    exact ⟨lbraceCh, objChars fs, by simp [sChars],
      Or.inr (Or.inr (Or.inr (Or.inr (Or.inr (Or.inl rfl)))))⟩

/-- Value-start characters differ from the structural delimiters. -/
lemma valueStart_ne {c : Char} (h : ValueStartCh c) :
    c ≠ ']' ∧ c ≠ rbraceCh ∧ c ≠ ',' ∧ c ≠ ':' := by
  rcases h with h | h | h | h | h | h | h | h
  · subst h; exact ⟨by decide, by decide, by decide, by decide⟩
  · subst h; exact ⟨by decide, by decide, by decide, by decide⟩
  · subst h; exact ⟨by decide, by decide, by decide, by decide⟩
  · subst h; exact ⟨by decide, by decide, by decide, by decide⟩
  · subst h; exact ⟨by decide, by decide, by decide, by decide⟩
  · subst h; exact ⟨by decide, by decide, by decide, by decide⟩
  · subst h; exact ⟨by decide, by decide, by decide, by decide⟩
  · have hn : 48 ≤ c.toNat ∧ c.toNat ≤ 57 := by
      simpa [isDigitCh, Bool.and_eq_true, decide_eq_true_iff] using h
    refine ⟨?_, ?_, ?_, ?_⟩ <;> intro he <;> subst he <;> revert hn <;> decide

/-- A digit character differs from every value-start keyword or bracket
character. -/
lemma digit_ne_starters {c : Char} (h : isDigitCh c = true) :
    c ≠ 'n' ∧ c ≠ 't' ∧ c ≠ 'f' ∧ c ≠ quoteCh ∧ c ≠ '[' ∧ c ≠ lbraceCh := by
  have hn : 48 ≤ c.toNat ∧ c.toNat ≤ 57 := by
    simpa [isDigitCh, Bool.and_eq_true, decide_eq_true_iff] using h
  refine ⟨?_, ?_, ?_, ?_, ?_, ?_⟩ <;> intro he <;> subst he <;> revert hn <;> decide

/-- A serialized array tail never starts with a digit. -/
lemma notDigitStart_arrTail (vs : List JVal) (rest : List Char) :
    NotDigitStart (arrTail vs ++ rest) := by
  cases vs with
  | nil =>
    rw [show arrTail [] = [']'] from by simp [arrTail]]
    exact (by decide : isDigitCh ']' = false)
  | cons v vs =>
    rw [show arrTail (v :: vs) = ',' :: (sChars v ++ arrTail vs) from by
      simp [arrTail]]
    exact (by decide : isDigitCh ',' = false)

/-- A serialized object tail never starts with a digit. -/
lemma notDigitStart_objTail (fs : List (String × JVal)) (rest : List Char) :
    NotDigitStart (objTail fs ++ rest) := by
  cases fs with
  | nil =>
    rw [show objTail [] = [rbraceCh] from by simp [objTail]]
    exact (by decide : isDigitCh rbraceCh = false)
  | cons f fs =>
    obtain ⟨k, v⟩ := f
    rw [show objTail ((k, v) :: fs)
        = ',' :: ((quoteCh :: strBody k.data) ++ (':' :: sChars v) ++ objTail fs)
      from by simp [objTail]]
    exact (by decide : isDigitCh ',' = false)

set_option maxHeartbeats 1000000 in
mutual

/-- Parsing inverts serialization for a single value, given enough fuel and
a remainder that does not continue a number. -/
theorem parseVal_sChars :
    ∀ (v : JVal) (rest : List Char) (fuel : Nat), jfuel v ≤ fuel →
      NotDigitStart rest → parseVal fuel (sChars v ++ rest) = some (v, rest)
  | .jnull, rest, fuel, hf, hrest => by
    simp only [jfuel] at hf
    cases fuel with
    | zero => omega
    | succ f =>
      rw [show sChars .jnull = ['n', 'u', 'l', 'l'] from by simp [sChars]]
      simp [parseVal]
  | .jbool true, rest, fuel, hf, hrest => by
    simp only [jfuel] at hf
    cases fuel with
    | zero => omega
    | succ f =>
      rw [show sChars (.jbool true) = ['t', 'r', 'u', 'e'] from by simp [sChars]]
      simp [parseVal]
  | .jbool false, rest, fuel, hf, hrest => by
    simp only [jfuel] at hf
    cases fuel with
    | zero => omega
    | succ f =>
      rw [show sChars (.jbool false) = ['f', 'a', 'l', 's', 'e'] from by
        simp [sChars]]
      simp [parseVal]
  | .jnum n, rest, fuel, hf, hrest => by
    simp only [jfuel] at hf
    cases fuel with
    | zero => omega
    | succ f =>
      rw [show sChars (.jnum n) = intChars n from by simp [sChars]]
      by_cases hneg : n < 0
      · have hm : intChars n = '-' :: natChars (-n).toNat := by
          simp [intChars, hneg]
        rw [hm, List.cons_append]
        simp only [parseVal, show ('-' : Char) ≠ 'n' from by decide,
          show ('-' : Char) ≠ 't' from by decide,
          show ('-' : Char) ≠ 'f' from by decide,
          show ('-' : Char) ≠ quoteCh from by decide,
          show ('-' : Char) ≠ '[' from by decide,
          show ('-' : Char) ≠ lbraceCh from by decide,
          ite_false, if_false]
        rw [← List.cons_append, ← hm, parseNumber_intChars n rest hrest]
        rfl
      · have hm : intChars n = natChars n.toNat := by simp [intChars, hneg]
        obtain ⟨d, t, hd, hdig⟩ := natChars_head n.toNat
        obtain ⟨e1, e2, e3, e4, e5, e6⟩ := digit_ne_starters hdig
        rw [hm, hd, List.cons_append]
        simp only [parseVal, e1, e2, e3, e4, e5, e6, ite_false, if_false]
        rw [← List.cons_append, ← hd, ← hm, parseNumber_intChars n rest hrest]
        rfl
  | .jstr s, rest, fuel, hf, hrest => by
    simp only [jfuel] at hf
    cases fuel with
    | zero => omega
    | succ f =>
      rw [show sChars (.jstr s) = quoteCh :: strBody s.data from by simp [sChars]]
      rw [List.cons_append]
      simp only [parseVal, show ¬(quoteCh = 'n') from by decide,
        show ¬(quoteCh = 't') from by decide,
        show ¬(quoteCh = 'f') from by decide,
        eq_self_iff_true, ite_false, ite_true, if_false, if_true]
      rw [parseStrBody_strBody s.data rest]
      rfl
  | .jarr vs, rest, fuel, hf, hrest => by
    simp only [jfuel] at hf
    cases fuel with
    | zero => omega
    | succ f =>
      rw [show sChars (.jarr vs) = '[' :: arrChars vs from by simp [sChars]]
      rw [List.cons_append]
      simp only [parseVal, show ¬(('[' : Char) = 'n') from by decide,
        show ¬(('[' : Char) = 't') from by decide,
        show ¬(('[' : Char) = 'f') from by decide,
        show ¬(('[' : Char) = quoteCh) from by decide,
        eq_self_iff_true, ite_false, ite_true, if_false, if_true]
      exact parseArr_arrChars vs rest f (by omega)
  | .jobj fs, rest, fuel, hf, hrest => by
    simp only [jfuel] at hf
    cases fuel with
    | zero => omega
    | succ f =>
      rw [show sChars (.jobj fs) = lbraceCh :: objChars fs from by simp [sChars]]
      rw [List.cons_append]
      simp only [parseVal, show ¬(lbraceCh = 'n') from by decide,
        show ¬(lbraceCh = 't') from by decide,
        show ¬(lbraceCh = 'f') from by decide,
        show ¬(lbraceCh = quoteCh) from by decide,
        show ¬(lbraceCh = '[') from by decide,
        eq_self_iff_true, ite_false, ite_true, if_false, if_true]
      exact parseObj_objChars fs rest f (by omega)

/-- Parsing inverts serialization for the elements of an array, after the
opening bracket. -/
theorem parseArr_arrChars :
    ∀ (vs : List JVal) (rest : List Char) (fuel : Nat), jfuelArr vs ≤ fuel →
      parseArr fuel (arrChars vs ++ rest) = some (.jarr vs, rest)
  | [], rest, fuel, hf => by
    simp only [jfuelArr] at hf
    cases fuel with
    | zero => omega
    | succ f =>
      rw [show arrChars [] = [']'] from by simp [arrChars]]
      simp only [List.cons_append, List.nil_append]
      simp only [parseArr, eq_self_iff_true, ite_true, if_true]
  | v :: vs, rest, fuel, hf => by
    simp only [jfuelArr] at hf
    cases fuel with
    | zero => omega
    | succ f =>
      rw [show arrChars (v :: vs) = sChars v ++ arrTail vs from by simp [arrChars]]
      rw [List.append_assoc]
      obtain ⟨c, t, hc, hstart⟩ := sChars_head v
      obtain ⟨k1, k2, k3, k4⟩ := valueStart_ne hstart
      rw [hc, List.cons_append]
      simp only [parseArr, k1, ite_false, if_false]
      rw [← List.cons_append, ← hc,
        parseVal_sChars v (arrTail vs ++ rest) f (by omega)
          (notDigitStart_arrTail vs rest)]
      show parseArrTail f [v] (arrTail vs ++ rest) = _
      rw [parseArrTail_arrTail vs [v] rest f (by omega)]
      simp

/-- Parsing inverts serialization for array elements after the first. -/
theorem parseArrTail_arrTail :
    ∀ (vs acc : List JVal) (rest : List Char) (fuel : Nat), jfuelTail vs ≤ fuel →
      parseArrTail fuel acc (arrTail vs ++ rest) = some (.jarr (acc ++ vs), rest)
  | [], acc, rest, fuel, hf => by
    simp only [jfuelTail] at hf
    cases fuel with
    | zero => omega
    | succ f =>
      rw [show arrTail [] = [']'] from by simp [arrTail]]
      simp only [List.cons_append, List.nil_append]
      simp only [parseArrTail, eq_self_iff_true, ite_true, if_true]
      simp
  | v :: vs, acc, rest, fuel, hf => by
    simp only [jfuelTail] at hf
    cases fuel with
    | zero => omega
    | succ f =>
      rw [show arrTail (v :: vs) = ',' :: (sChars v ++ arrTail vs) from by
        simp [arrTail]]
      rw [List.cons_append, List.append_assoc]
      simp only [parseArrTail, show ¬((',' : Char) = ']') from by decide,
        eq_self_iff_true, ite_false, ite_true, if_false, if_true]
      rw [parseVal_sChars v (arrTail vs ++ rest) f (by omega)
        (notDigitStart_arrTail vs rest)]
      show parseArrTail f (acc ++ [v]) (arrTail vs ++ rest) = _
      rw [parseArrTail_arrTail vs (acc ++ [v]) rest f (by omega)]
      simp

/-- Parsing inverts serialization for the fields of an object, after the
opening brace. -/
theorem parseObj_objChars :
    ∀ (fs : List (String × JVal)) (rest : List Char) (fuel : Nat),
      jfuelObj fs ≤ fuel → parseObj fuel (objChars fs ++ rest) = some (.jobj fs, rest)
  | [], rest, fuel, hf => by
    simp only [jfuelObj] at hf
    cases fuel with
    | zero => omega
    | succ f =>
      rw [show objChars [] = [rbraceCh] from by simp [objChars]]
      simp only [List.cons_append, List.nil_append]
      simp only [parseObj, eq_self_iff_true, ite_true, if_true]
  | (k, v) :: fs, rest, fuel, hf => by
    simp only [jfuelObj] at hf
    cases fuel with
    | zero => omega
    | succ f =>
      rw [show objChars ((k, v) :: fs)
          = (quoteCh :: strBody k.data) ++ (':' :: sChars v) ++ objTail fs from by
        simp [objChars]]
      simp only [List.append_assoc, List.cons_append]
      simp only [parseObj, show ¬(quoteCh = rbraceCh) from by decide,
        eq_self_iff_true, ite_false, ite_true, if_false, if_true]
      rw [parseStrBody_strBody k.data (':' :: (sChars v ++ (objTail fs ++ rest)))]
      show (match parseVal f (sChars v ++ (objTail fs ++ rest)) with
        | some (v, rest3) => parseObjTail f [(String.mk k.data, v)] rest3
        | none => none) = _
      rw [parseVal_sChars v (objTail fs ++ rest) f (by omega)
        (notDigitStart_objTail fs rest)]
      show parseObjTail f [(String.mk k.data, v)] (objTail fs ++ rest) = _
      have hk : String.mk k.data = k := rfl
      rw [hk, parseObjTail_objTail fs [(k, v)] rest f (by omega)]
      simp

/-- Parsing inverts serialization for object fields after the first. -/
theorem parseObjTail_objTail :
    ∀ (fs acc : List (String × JVal)) (rest : List Char) (fuel : Nat),
      jfuelObjTail fs ≤ fuel →
      parseObjTail fuel acc (objTail fs ++ rest) = some (.jobj (acc ++ fs), rest)
  | [], acc, rest, fuel, hf => by
    simp only [jfuelObjTail] at hf
    cases fuel with
    | zero => omega
    | succ f =>
      rw [show objTail [] = [rbraceCh] from by simp [objTail]]
      simp only [List.cons_append, List.nil_append]
      simp only [parseObjTail, eq_self_iff_true, ite_true, if_true]
      simp
  | (k, v) :: fs, acc, rest, fuel, hf => by
    simp only [jfuelObjTail] at hf
    cases fuel with
    | zero => omega
    | succ f =>
      rw [show objTail ((k, v) :: fs)
          = ',' :: ((quoteCh :: strBody k.data) ++ (':' :: sChars v) ++ objTail fs)
        from by simp [objTail]]
      simp only [List.append_assoc, List.cons_append]
      simp only [parseObjTail, show ¬((',' : Char) = rbraceCh) from by decide,
        eq_self_iff_true, ite_false, ite_true, if_false, if_true]
      rw [parseStrBody_strBody k.data (':' :: (sChars v ++ (objTail fs ++ rest)))]
      show (match parseVal f (sChars v ++ (objTail fs ++ rest)) with
        | some (v, rest4) => parseObjTail f (acc ++ [(String.mk k.data, v)]) rest4
        | none => none) = _
      rw [parseVal_sChars v (objTail fs ++ rest) f (by omega)
        (notDigitStart_objTail fs rest)]
      show parseObjTail f (acc ++ [(String.mk k.data, v)]) (objTail fs ++ rest) = _
      have hk : String.mk k.data = k := rfl
      rw [hk, parseObjTail_objTail fs (acc ++ [(k, v)]) rest f (by omega)]
      simp

end

/-- Strings with equal character data are equal. -/
lemma string_data_ext {a b : String} (h : a.data = b.data) : a = b := by
  cases a with
  | mk da =>
    cases b with
    | mk db =>
      have h2 : da = db := h
      rw [h2]

/-- A serialized value has at least one character. -/
lemma sChars_length_pos (v : JVal) : 1 ≤ (sChars v).length := by
  obtain ⟨c, t, hc, -⟩ := sChars_head v
  rw [hc]
  simp

/-- A serialized array tail has at least one character. -/
lemma arrTail_length_pos (vs : List JVal) : 1 ≤ (arrTail vs).length := by
  cases vs with
  | nil => rw [show arrTail [] = [']'] from by simp [arrTail]]; simp
  | cons v vs =>
    rw [show arrTail (v :: vs) = ',' :: (sChars v ++ arrTail vs) from by
      simp [arrTail]]
    simp

/-- A serialized object tail has at least one character. -/
lemma objTail_length_pos (fs : List (String × JVal)) : 1 ≤ (objTail fs).length := by
  cases fs with
  | nil => rw [show objTail [] = [rbraceCh] from by simp [objTail]]; simp
  | cons kv fs =>
    obtain ⟨k, v⟩ := kv
    rw [show objTail ((k, v) :: fs)
        = ',' :: ((quoteCh :: strBody k.data) ++ (':' :: sChars v) ++ objTail fs)
      from by simp [objTail]]
    simp

mutual

/-- The fuel needed for a value is at most one more than its length. -/
theorem jfuel_le_length : ∀ v : JVal, jfuel v ≤ (sChars v).length + 1
  | .jnull => by simp [jfuel]
  | .jbool b => by cases b <;> simp [jfuel]
  | .jnum n => by simp [jfuel]
  | .jstr s => by simp [jfuel]
  | .jarr vs => by
    have h := jfuelArr_le_length vs
    rw [show sChars (.jarr vs) = '[' :: arrChars vs from by simp [sChars]]
    simp only [jfuel, List.length_cons]
    omega
  | .jobj fs => by
    have h := jfuelObj_le_length fs
    rw [show sChars (.jobj fs) = lbraceCh :: objChars fs from by simp [sChars]]
    simp only [jfuel, List.length_cons]
    omega

/-- The fuel needed for array elements is at most one more than their
length. -/
theorem jfuelArr_le_length : ∀ vs : List JVal, jfuelArr vs ≤ (arrChars vs).length + 1
  | [] => by
    rw [show arrChars [] = [']'] from by simp [arrChars]]
    simp [jfuelArr]
  | v :: vs => by
    have h1 := jfuel_le_length v
    have h2 := jfuelTail_le_length vs
    have h3 := arrTail_length_pos vs
    rw [show arrChars (v :: vs) = sChars v ++ arrTail vs from by simp [arrChars]]
    simp only [jfuelArr, List.length_append]
    omega

/-- The fuel needed for an array tail is at most its length. -/
theorem jfuelTail_le_length : ∀ vs : List JVal, jfuelTail vs ≤ (arrTail vs).length
  | [] => by
    rw [show arrTail [] = [']'] from by simp [arrTail]]
    simp [jfuelTail]
  | v :: vs => by
    have h1 := jfuel_le_length v
    have h2 := jfuelTail_le_length vs
    have h3 := arrTail_length_pos vs
    rw [show arrTail (v :: vs) = ',' :: (sChars v ++ arrTail vs) from by
      simp [arrTail]]
    simp only [jfuelTail, List.length_cons, List.length_append]
    omega

/-- The fuel needed for object fields is at most one more than their
length. -/
theorem jfuelObj_le_length :
    ∀ fs : List (String × JVal), jfuelObj fs ≤ (objChars fs).length + 1
  | [] => by
    rw [show objChars [] = [rbraceCh] from by simp [objChars]]
    simp [jfuelObj]
  | (k, v) :: fs => by
    have h1 := jfuel_le_length v
    have h2 := jfuelObjTail_le_length fs
    have h3 := objTail_length_pos fs
    rw [show objChars ((k, v) :: fs)
        = (quoteCh :: strBody k.data) ++ (':' :: sChars v) ++ objTail fs from by
      simp [objChars]]
    simp only [jfuelObj, List.length_append, List.length_cons]
    omega

/-- The fuel needed for an object tail is at most its length. -/
theorem jfuelObjTail_le_length :
    ∀ fs : List (String × JVal), jfuelObjTail fs ≤ (objTail fs).length
  | [] => by
    rw [show objTail [] = [rbraceCh] from by simp [objTail]]
    simp [jfuelObjTail]
  | (k, v) :: fs => by
    have h1 := jfuel_le_length v
    have h2 := jfuelObjTail_le_length fs
    have h3 := objTail_length_pos fs
    rw [show objTail ((k, v) :: fs)
        = ',' :: ((quoteCh :: strBody k.data) ++ (':' :: sChars v) ++ objTail fs)
      from by simp [objTail]]
    simp only [jfuelObjTail, List.length_cons, List.length_append]
    omega

end

/-- The modelled `JSON.parse` inverts the modelled `JSON.stringify`. -/
theorem jsonParse_jsonStringify (v : JVal) : jsonParse (jsonStringify v) = some v := by
  have h := parseVal_sChars v [] ((sChars v).length + 1)
    (le_trans (jfuel_le_length v) (by omega)) trivial
  rw [List.append_nil] at h
  unfold jsonParse
  rw [show (jsonStringify v).data = sChars v from rfl,
    show (jsonStringify v).length = (sChars v).length from rfl, h]

/-- C9: `Rectangle(w, h)` builds an object carrying `width = w` and
`height = h`, whose `getArea()` multiplies the instance's current field
values at call time: `Rectangle(10, 20).getArea()` is `200`, and after a
width update `getArea()` reflects the new value (not memoized). -/
theorem rectangle_getArea_current_fields :
    (∀ w h : Int, (Rectangle w h).width = w ∧ (Rectangle w h).height = h) ∧
    (∀ w h : Int, (Rectangle w h).getArea = w * h) ∧
    (Rectangle 10 20).getArea = 200 ∧
    (∀ (r : RectangleObj) (w2 : Int),
        ({ r with width := w2 } : RectangleObj).getArea = w2 * r.height) :=
  ⟨fun _ _ => ⟨rfl, rfl⟩, fun _ _ => rfl, rfl, fun _ _ => rfl⟩

/-- Joining with leading commas extends a comma-separated join. -/
lemma joinComma_cons (x : String) (xs : List String) :
    joinComma (x :: xs) = x ++ commaJoinAll xs := by
  induction xs generalizing x with
  | nil => simp [joinComma, commaJoinAll, String.append_empty]
  | cons y ys ih =>
    show x ++ "," ++ joinComma (y :: ys) = _
    rw [ih y]
    simp [commaJoinAll, String.append_assoc]

/-- The serialized object tail is the comma-led join of the rendered
fields. -/
lemma objTail_data :
    ∀ fs : List (String × JVal),
      objTail fs = (commaJoinAll (fs.map renderField)).data ++ [rbraceCh] := by
  intro fs
  induction fs with
  | nil => simp [objTail, commaJoinAll]
  | cons kv fs ih =>
    obtain ⟨k, v⟩ := kv
    rw [show objTail ((k, v) :: fs)
        = ',' :: ((quoteCh :: strBody k.data) ++ (':' :: sChars v) ++ objTail fs)
      from by simp [objTail]]
    rw [ih]
    simp [commaJoinAll, renderField, jsonStringify, String.data_append,
      List.append_assoc]

/-- The serialized object body is the comma-separated join of the rendered
fields. -/
lemma objChars_data :
    ∀ fs : List (String × JVal),
      objChars fs = (joinComma (fs.map renderField)).data ++ [rbraceCh] := by
  intro fs
  cases fs with
  | nil => simp [objChars, joinComma]
  | cons kv fs =>
    obtain ⟨k, v⟩ := kv
    rw [show objChars ((k, v) :: fs)
        = (quoteCh :: strBody k.data) ++ (':' :: sChars v) ++ objTail fs from by
      simp [objChars]]
    rw [objTail_data, List.map_cons, joinComma_cons]
    simp [renderField, jsonStringify, String.data_append, List.append_assoc]

/-- The serialized array tail is the comma-led join of the serialized
elements. -/
lemma arrTail_data :
    ∀ vs : List JVal,
      arrTail vs = (commaJoinAll (vs.map jsonStringify)).data ++ [']'] := by
  intro vs
  induction vs with
  | nil => simp [arrTail, commaJoinAll]
  | cons v vs ih =>
    rw [show arrTail (v :: vs) = ',' :: (sChars v ++ arrTail vs) from by
      simp [arrTail]]
    rw [ih]
    simp [commaJoinAll, jsonStringify, String.data_append, List.append_assoc]

/-- The serialized array body is the comma-separated join of the serialized
elements. -/
lemma arrChars_data :
    ∀ vs : List JVal,
      arrChars vs = (joinComma (vs.map jsonStringify)).data ++ [']'] := by
  intro vs
  cases vs with
  | nil => simp [arrChars, joinComma]
  | cons v vs =>
    rw [show arrChars (v :: vs) = sChars v ++ arrTail vs from by simp [arrChars]]
    rw [arrTail_data, List.map_cons, joinComma_cons]
    simp [jsonStringify, String.data_append, List.append_assoc]

/-- Serialization of an object renders its fields, in stored property
order, inside braces. -/
lemma getJSON_jobj (fs : List (String × JVal)) :
    getJSON (.jobj fs) = "\x7b" ++ joinComma (fs.map renderField) ++ "\x7d" := by
  apply string_data_ext
  rw [show (getJSON (.jobj fs)).data = sChars (.jobj fs) from rfl,
    show sChars (.jobj fs) = lbraceCh :: objChars fs from by simp [sChars],
    objChars_data]
  simp only [String.data_append]
  rw [show lbraceCh = '\x7b' from by decide, show rbraceCh = '\x7d' from by decide]
  simp

/-- Serialization of an array renders its elements, preserving element
order, inside brackets. -/
lemma getJSON_jarr (vs : List JVal) :
    getJSON (.jarr vs) = "[" ++ joinComma (vs.map jsonStringify) ++ "]" := by
  apply string_data_ext
  rw [show (getJSON (.jarr vs)).data = sChars (.jarr vs) from rfl,
    show sChars (.jarr vs) = '[' :: arrChars vs from by simp [sChars],
    arrChars_data]
  simp only [String.data_append]
  simp

/-- C8: for every plain-field object (distinct keys) and every prototype,
`fromJSON(proto, getJSON(obj))` yields an object whose own fields equal the
original own fields, and whose members inherited from the prototype remain
accessible through the capability link as non-own members. -/
theorem fromJSON_getJSON_roundtrip {Cap : Type} (proto : List (String × Cap))
    (fields : List (String × JVal)) (_hnd : (fields.map Prod.fst).Nodup) :
    fromJSON proto (getJSON (.jobj fields))
        = some { proto := proto, own := fields } ∧
    ∀ (m : String) (c : Cap), fields.lookup m = none → proto.lookup m = some c →
      getMember { proto := proto, own := fields } m = some (.inr c) := by
  constructor
  · unfold fromJSON getJSON
    rw [jsonParse_jsonStringify]
    show some (objectAssign (objectCreate Cap proto) (.jobj fields)) = _
    unfold objectAssign objectCreate fieldsOf
    simp
  · intro m c hown hproto
    unfold getMember
    rw [show ({ proto := proto, own := fields } : JSObject Cap).own = fields
      from rfl, hown,
      show ({ proto := proto, own := fields } : JSObject Cap).proto = proto
      from rfl, hproto]
    rfl

/-- Witness for C8 at a concrete prototype/object pair: a `radius: 10`
object round-trips, and the prototype's capability stays reachable. -/
theorem fromJSON_getJSON_roundtrip_witness :
    fromJSON [("getArea", "area-capability")] (getJSON (.jobj [("radius", .jnum 10)]))
        = some { proto := [("getArea", "area-capability")],
                 own := [("radius", JVal.jnum 10)] } ∧
    getMember ({ proto := [("getArea", "area-capability")],
                 own := [("radius", JVal.jnum 10)] } : JSObject String) "getArea"
        = some (.inr "area-capability") :=
  ⟨(fromJSON_getJSON_roundtrip [("getArea", "area-capability")]
      [("radius", .jnum 10)] (by decide)).1,
    (fromJSON_getJSON_roundtrip [("getArea", "area-capability")]
      [("radius", .jnum 10)] (by decide)).2 "getArea" "area-capability"
      (by rfl) (by rfl)⟩

/-- C10: serialization of a plain mapping lists the keys in the canonical
property order (array-index keys ascending first, then insertion order)
rather than raw insertion order — shown non-vacuously by a mapping whose
canonical order differs from its insertion order — while arrays serialize
as ordered sequences preserving element order. -/
theorem getJSON_canonical_key_order :
    (∀ entries : List (String × JVal),
        getJSON (mkJSObjectValue entries)
          = "\x7b" ++ joinComma ((canonicalKeyOrder entries).map renderField)
              ++ "\x7d") ∧
    (∀ vs : List JVal,
        getJSON (.jarr vs) = "[" ++ joinComma (vs.map jsonStringify) ++ "]") ∧
    mkJSObjectValue [("2", .jnum 2), ("10", .jnum 10), ("b", .jbool true), ("1", .jnum 1)]
      = .jobj [("1", .jnum 1), ("2", .jnum 2), ("10", .jnum 10), ("b", .jbool true)] ∧
    (canonicalKeyOrder
        [("2", .jnum 2), ("10", .jnum 10), ("b", .jbool true), ("1", .jnum 1)]).map Prod.fst
      ≠ [("2", JVal.jnum 2), ("10", .jnum 10), ("b", .jbool true), ("1", .jnum 1)].map Prod.fst := by
  refine ⟨fun entries => getJSON_jobj _, fun vs => getJSON_jarr vs, by rfl, by decide⟩
